import Mathlib

/-!
Verification of the redmine-analytics core against its specification.

The Python source is shallowly embedded: each relevant function from
`src/cache.py`, `src/redmine_client.py`, `src/data_processor.py` and
`src/frontend/auth.py` is translated into an executable Lean definition.
Time values (`time.time()` floats) are modelled as rationals; machine
integers are `Nat`/`Int`.  Stateful methods become explicit state-passing
functions.  Blocking sleeps are modelled by an ideal clock: a sleep of
duration `d` advances the current time by exactly `d`, and no time passes
between consecutive statements.
-/

namespace RedmineAnalytics

/-! ## TTL cache (`src/cache.py`)

`CacheManager` holds a dict from string keys to `CacheEntry(data, timestamp,
ttl)`.  `get` lazily expires entries (`time() - timestamp > ttl` deletes the
entry and returns `None`); `set` overwrites; `invalidate` pops one key;
`clear` empties the map.  The dict is modelled as an association list with
at most one binding per key (the lookup/erase/insert operations below agree
with a Python dict on such lists); `time()` is passed explicitly as `now`. -/

structure CacheEntry (α : Type) where
  data : α
  timestamp : ℚ
  ttl : ℤ
  deriving Repr, DecidableEq

/-- The cache's backing map, as an association list (key, entry). -/
abbrev CacheMap (α : Type) : Type := List (String × CacheEntry α)

/-- `self._cache.get(key)`: first binding of `key`, if any. -/
def cacheLookup {α} (m : CacheMap α) (key : String) : Option (CacheEntry α) :=
  (List.find? (fun p => p.1 = key) m).map (·.2)

/-- `del self._cache[key]` / `self._cache.pop(key, None)`. -/
def cacheErase {α} (m : CacheMap α) (key : String) : CacheMap α :=
  List.filter (fun p => p.1 ≠ key) m

/-- `self._cache[key] = entry`: overwrite the binding for `key`. -/
def cacheInsert {α} (m : CacheMap α) (key : String) (e : CacheEntry α) : CacheMap α :=
  (key, e) :: cacheErase m key

/-- `CacheManager.get` (src/cache.py lines 18-28).  Returns the visible value
and the cache state after the call (the entry is deleted when expired). -/
def cacheManagerGet {α} (m : CacheMap α) (key : String) (now : ℚ) :
    Option α × CacheMap α :=
  match cacheLookup m key with
  | none => (none, m)
  | some entry =>
      if now - entry.timestamp > (entry.ttl : ℚ) then
        (none, cacheErase m key)
      else
        (some entry.data, m)

/-- `CacheManager.set` (src/cache.py lines 30-36). -/
def cacheManagerSet {α} (m : CacheMap α) (key : String) (value : α) (ttl : ℤ)
    (now : ℚ) : CacheMap α :=
  cacheInsert m key ⟨value, now, ttl⟩

/-- `CacheManager.invalidate` (src/cache.py lines 38-40). -/
def cacheManagerInvalidate {α} (m : CacheMap α) (key : String) : CacheMap α :=
  cacheErase m key

/-- `CacheManager.clear` (src/cache.py lines 42-44). -/
def cacheManagerClear {α} (_m : CacheMap α) : CacheMap α := []

/-! ## Role hierarchy (`src/frontend/auth.py` lines 91-103, and the identical
copy in `src/frontend/components/auth.py` lines 176-188)

`check_role_access` ranks the session role and the required role with
`role_hierarchy = {"superadmin": 3, "admin": 2, "manager": 1}` (any other
role gets rank 0 via `dict.get(role, 0)`) and grants access when
`user_level >= required_level`. -/

/-- `role_hierarchy.get(role, 0)`. -/
def roleLevel (role : String) : Nat :=
  if role = "superadmin" then 3
  else if role = "admin" then 2
  else if role = "manager" then 1
  else 0

/-- `Authenticator.check_role_access`, with the session role passed
explicitly (the code reads it from `st.session_state`). -/
def check_role_access (userRole requiredRole : String) : Bool :=
  roleLevel requiredRole ≤ roleLevel userRole

/-! ## Error classification (`src/redmine_client.py` lines 90-112)

`_handle_response` calls `response.raise_for_status()`, which (in the
`requests` library) raises `HTTPError` exactly when `400 <= status < 600`;
1xx/2xx/3xx statuses pass through silently.  On an error it computes
`error_msg`: the comma-join of the response body's `errors` array when the
body is JSON with such a key, else `str(e)` (the HTTPError text), and then
raises a `RedmineApiError` keyed on the status code. -/

structure RedmineApiError where
  status_code : Nat
  message : String
  deriving Repr, DecidableEq

/-- `RedmineClient._handle_response`.  `errorsBody` is `some errs` when the
response body parses as JSON containing an `errors` array, else `none`;
`httpErrMsg` is `str(e)` for the `HTTPError` raised by `raise_for_status`.
Returns `some err` when the Python code raises `RedmineApiError err`, and
`none` when it returns normally. -/
def handle_response (status : Nat) (errorsBody : Option (List String))
    (httpErrMsg : String) : Option RedmineApiError :=
  if 400 ≤ status ∧ status < 600 then
    let errorMsg :=
      match errorsBody with
      | some errs => String.intercalate ", " errs
      | none => httpErrMsg
    if status = 401 then some ⟨401, "Authentication failed. Check your API key."⟩
    else if status = 403 then some ⟨403, "Insufficient permissions for this request."⟩
    else if status = 404 then some ⟨404, "Resource not found."⟩
    else if status = 422 then some ⟨422, "Validation failed: " ++ errorMsg⟩
    else some ⟨status, errorMsg⟩
  else none

/-! ## Request/retry loop (`src/redmine_client.py` lines 59-88)

`_make_request` runs `for attempt in range(3)`.  Each iteration performs one
HTTP attempt, whose outcome we model as either a response (status, optional
parsed `Retry-After` header, optional `errors` body, `str(e)` message for
`raise_for_status`, JSON body) or a transport-level
`requests.exceptions.RequestException`.  On status 429 the code sleeps
`int(headers.get('Retry-After', retry_delay))` seconds and `continue`s —
note that this `continue` still advances the `for` loop, consuming one of
the 3 attempts.  On a transport failure at the last attempt the exception
is re-raised, otherwise the code sleeps `retry_delay * (attempt + 1)` and
retries.  If the loop falls off the end (possible only via 429
`continue`s), the function returns `None`. -/

inductive AttemptOutcome (β : Type) where
  | response (status : Nat) (retryAfter : Option ℤ)
      (errorsBody : Option (List String)) (httpErrMsg : String) (body : β)
  | transportFailure (msg : String)
  deriving Repr, DecidableEq

inductive RequestResult (β : Type) where
  /-- `return response.json()` -/
  | success (body : β)
  /-- `RedmineApiError` raised by `_handle_response` -/
  | apiError (e : RedmineApiError)
  /-- transport exception re-raised after the last attempt -/
  | transportError (msg : String)
  /-- the `for` loop was exhausted without returning: Python returns `None` -/
  | noResponse
  deriving Repr, DecidableEq

/-- `retry_delay = 1  # seconds` (line 62). -/
def retryDelay : ℤ := 1

/-- `max_retries = 3` (line 61). -/
def maxRetries : Nat := 3

/-- The body of `_make_request`'s `for attempt in range(max_retries)` loop,
consuming one `AttemptOutcome` per iteration and recording every
`time.sleep` duration (in seconds, in order).  Returns `none` when the
driver under-supplies outcomes (the real code would make a further HTTP
attempt). -/
def makeRequestGo {β : Type} :
    Nat → List (AttemptOutcome β) → List ℤ → Option (RequestResult β × List ℤ)
  | attempt, outs, sleeps =>
    if maxRetries ≤ attempt then
      -- `for` loop exhausted: function body ends, Python returns `None`
      some (RequestResult.noResponse, sleeps.reverse)
    else
      match outs with
      | [] => none
      | AttemptOutcome.response status retryAfter errorsBody httpErrMsg body :: rest =>
          if status = 429 then
            -- `time.sleep(retry_after); continue`
            makeRequestGo (attempt + 1) rest ((retryAfter.getD retryDelay) :: sleeps)
          else
            match handle_response status errorsBody httpErrMsg with
            | some err => some (RequestResult.apiError err, sleeps.reverse)
            | none => some (RequestResult.success body, sleeps.reverse)
      | AttemptOutcome.transportFailure msg :: rest =>
          if attempt = maxRetries - 1 then
            some (RequestResult.transportError msg, sleeps.reverse)
          else
            -- `time.sleep(retry_delay * (attempt + 1))`
            makeRequestGo (attempt + 1) rest ((retryDelay * (attempt + 1 : ℤ)) :: sleeps)

/-- `RedmineClient._make_request` on a given sequence of attempt outcomes:
the final result together with the list of sleep durations performed. -/
def make_request {β : Type} (outs : List (AttemptOutcome β)) :
    Option (RequestResult β × List ℤ) :=
  makeRequestGo 0 outs []

/-! ## Pagination (`src/redmine_client.py` lines 114-151)

`_get_paginated_response` loops: request a page, record `total_count` from
the **first** response only, extend `all_items` with the page's item list,
and break as soon as `len(all_items) >= total_count`.  We model the server
as the list of successive page responses; each carries the `total_count` it
reports and its item list.  The loop's `offset += limit` bookkeeping selects
which page the server returns and does not otherwise affect the result. -/

structure Page (α : Type) where
  total_count : Nat
  items : List α
  deriving Repr, DecidableEq

/-- The `while True` loop of `_get_paginated_response`.  `tc` is the
`total_count` captured from the first page (`none` before the first
response).  Returns `none` when the loop would request a page beyond the
supplied responses. -/
def paginateLoop {α : Type} :
    List (Page α) → List α → Option Nat → Option (List α)
  | [], _, _ => none
  | p :: rest, acc, tc =>
      let total := tc.getD p.total_count
      let acc2 := acc ++ p.items
      if total ≤ acc2.length then some acc2
      else paginateLoop rest acc2 (some total)

/-- `RedmineClient._get_paginated_response` on a given page sequence. -/
def get_paginated_response {α : Type} (pages : List (Page α)) : Option (List α) :=
  paginateLoop pages [] none

/-! ## Cached and uncached fetch operations (`src/redmine_client.py`)

The constructor (lines 50-57) builds
`self._cache_ttl = {'activities': 86400, 'issue_statuses': 86400,
'issue_priorities': 86400, 'users': 3600, 'projects': 3600, **(cache_ttl or {})}`.
`get_activities` (lines 246-266) and `get_issue_statuses` (lines 268-288)
consult the cache when `self._cache_enabled`, fetch on a miss and store the
fetched list under their key with `self._cache_ttl[key]`.
`get_projects` (lines 186-188) and `get_users` (lines 242-244) simply
`return self._get_paginated_response(...)`: they never read or write the
cache.  The HTTP fetch is abstracted as the value `fetched` the network
would deliver. -/

/-- The `self._cache_ttl` dict built by the constructor, with no
caller-supplied overrides. -/
def cacheTtlDefaults : List (String × ℤ) :=
  [("activities", 3600 * 24), ("issue_statuses", 3600 * 24),
   ("issue_priorities", 3600 * 24), ("users", 3600), ("projects", 3600)]

/-- `self._cache_ttl[key]` (both uses, `'activities'` and `'issue_statuses'`,
hit keys present in the dict; a missing key would be a Python `KeyError`). -/
def cacheTtlOf (key : String) : ℤ :=
  ((List.find? (fun p => p.1 = key) cacheTtlDefaults).map (·.2)).getD 0

/-- Outcome of one getter call: the returned value, the cache state after
the call, and whether an HTTP request was issued. -/
structure FetchResult (α : Type) where
  value : α
  cache : CacheMap α
  httpCalled : Bool

/-- Common body of `get_activities` / `get_issue_statuses`: cache-first
lookup under `key`, fetch and store on a miss, full bypass when caching is
disabled. -/
def cachedFetch {α : Type} (key : String) (cacheEnabled : Bool)
    (cache : CacheMap α) (now : ℚ) (fetched : α) : FetchResult α :=
  if cacheEnabled then
    match cacheManagerGet cache key now with
    | (some v, c2) => ⟨v, c2, false⟩
    | (none, c2) => ⟨fetched, cacheManagerSet c2 key fetched (cacheTtlOf key) now, true⟩
  else ⟨fetched, cache, true⟩

/-- `RedmineClient.get_activities` (lines 246-266). -/
def get_activities {α : Type} (cacheEnabled : Bool) (cache : CacheMap α)
    (now : ℚ) (fetched : α) : FetchResult α :=
  cachedFetch "activities" cacheEnabled cache now fetched

/-- `RedmineClient.get_issue_statuses` (lines 268-288). -/
def get_issue_statuses {α : Type} (cacheEnabled : Bool) (cache : CacheMap α)
    (now : ℚ) (fetched : α) : FetchResult α :=
  cachedFetch "issue_statuses" cacheEnabled cache now fetched

/-- `RedmineClient.get_projects` (lines 186-188):
`return self._get_paginated_response('projects.json')`.  The cache state
and flag are parameters only so the (absent) cache interaction is
observable: the code issues the HTTP fetch unconditionally. -/
def get_projects {α : Type} (_cacheEnabled : Bool) (cache : CacheMap α)
    (_now : ℚ) (fetched : α) : FetchResult α :=
  ⟨fetched, cache, true⟩

/-- `RedmineClient.get_users` (lines 242-244):
`return self._get_paginated_response('users.json')`; same shape as
`get_projects`. -/
def get_users {α : Type} (_cacheEnabled : Bool) (cache : CacheMap α)
    (_now : ℚ) (fetched : α) : FetchResult α :=
  ⟨fetched, cache, true⟩

/-! ## Data transformer (`src/data_processor.py` lines 16-63)

`process_time_entries` returns an empty frame on empty input; otherwise it
builds a DataFrame from the raw entry dicts and appends derived columns.
Nested refs are unpacked with `x.get('name') if x else None` (resp.
`'id'`); custom-field values are extracted with `get_custom_field_value`;
the three flags compare those strings to `"1"`; `week/month/quarter/year`
come from `spent_on` (`isocalendar().week`, `dt.month`, `dt.quarter`,
`dt.year`); `hours` is `pd.to_numeric(..., errors='coerce').fillna(0)`.
A raw `hours` value is modelled as `Option ℚ`: `some q` for a value that
coerces to the number `q`, `none` for one `to_numeric` turns into `NaN`. -/

/-- A nested reference dict such as `project`/`user`/`activity`/`issue`;
either key may be missing. -/
structure Ref where
  id : Option Nat := none
  name : Option String := none
  deriving Repr, DecidableEq

/-- One element of a raw entry's `custom_fields` list. -/
structure CustomField where
  id : Option Nat := none
  value : Option String := none
  deriving Repr, DecidableEq

/-- A calendar date (the `spent_on` field). -/
structure Date where
  year : Nat
  month : Nat
  day : Nat
  deriving Repr, DecidableEq

/-- A raw time entry as delivered by the API.  `custom_fields = none`
models a missing/null list (falsy in Python, like `some []`). -/
structure TimeEntryRaw where
  id : Nat
  project : Option Ref := none
  user : Option Ref := none
  activity : Option Ref := none
  issue : Option Ref := none
  hours : Option ℚ := none
  spent_on : Date
  comments : String := ""
  custom_fields : Option (List CustomField) := none
  deriving Repr, DecidableEq

/-- `get_custom_field_value(fields, field_id)` (lines 32-36): `"0"` when
the list is falsy (missing/empty), else the first field whose `id` equals
`field_id` supplies `f.get('value', '0')` (`"0"` when the `value` key is
absent); no matching field gives `"0"`.  The API delivers `value` as a
string, so `CustomField.value = none` models an absent `value` key. -/
def get_custom_field_value (fields : Option (List CustomField))
    (fieldId : Nat) : String :=
  match fields with
  | none => "0"
  | some fs =>
      if fs.isEmpty then "0"
      else
        match List.find? (fun f => f.id = some fieldId) fs with
        | some f => f.value.getD "0"
        | none => "0"

/-- Gauss' formula: weekday of 1 January of `year`, 0 = Sunday. -/
def jan1Weekday (year : Nat) : Nat :=
  (1 + 5 * ((year - 1) % 4) + 4 * ((year - 1) % 100) + 6 * ((year - 1) % 400)) % 7

def isLeapYear (year : Nat) : Bool :=
  (year % 4 = 0 && year % 100 ≠ 0) || year % 400 = 0

/-- Day-of-year ordinal (1 for 1 January). -/
def dayOfYear (d : Date) : Nat :=
  let lens := [31, if isLeapYear d.year then 29 else 28,
               31, 30, 31, 30, 31, 31, 30, 31, 30, 31]
  (List.take (d.month - 1) lens).sum + d.day

/-- ISO weekday, 1 = Monday .. 7 = Sunday. -/
def isoWeekday (d : Date) : Nat :=
  ((jan1Weekday d.year + (dayOfYear d - 1)) % 7 + 6) % 7 + 1

/-- Number of ISO weeks (52 or 53) in `year`. -/
def isoWeeksInYear (year : Nat) : Nat :=
  let p : Nat → Nat := fun y => (y + y / 4 - y / 100 + y / 400) % 7
  if p year = 4 || p (year - 1) = 3 then 53 else 52

/-- ISO-8601 week number of a date (`Series.dt.isocalendar().week`). -/
def isoWeek (d : Date) : Nat :=
  let w : ℤ := ((dayOfYear d : ℤ) - (isoWeekday d : ℤ) + 10) / 7
  if w < 1 then isoWeeksInYear (d.year - 1)
  else if w > 52 && 52 < isoWeeksInYear d.year then 53
  else if w > (isoWeeksInYear d.year : ℤ) then 1
  else w.toNat

/-- One row of the DataFrame produced by `process_time_entries`, restricted
to the claim-relevant columns (raw scalars plus every derived column). -/
structure NormalizedRow where
  id : Nat
  project_name : Option String
  user_name : Option String
  activity_name : Option String
  issue_id : Option Nat
  tms_payment : String
  hours_approved : String
  error_text : String
  hours_loaded : String
  work_type_code : String
  is_paid : Bool
  is_approved : Bool
  is_loaded : Bool
  spent_on : Date
  week : Nat
  month : Nat
  quarter : Nat
  year : Nat
  hours : ℚ
  comments : String
  deriving Repr, DecidableEq

/-- The per-row computation of `process_time_entries` (lines 26-61). -/
def processEntry (e : TimeEntryRaw) : NormalizedRow where
  id := e.id
  project_name := e.project.bind (·.name)
  user_name := e.user.bind (·.name)
  activity_name := e.activity.bind (·.name)
  issue_id := e.issue.bind (·.id)
  tms_payment := get_custom_field_value e.custom_fields 25
  hours_approved := get_custom_field_value e.custom_fields 26
  error_text := get_custom_field_value e.custom_fields 62
  hours_loaded := get_custom_field_value e.custom_fields 80
  work_type_code := get_custom_field_value e.custom_fields 86
  is_paid := get_custom_field_value e.custom_fields 25 = "1"
  is_approved := get_custom_field_value e.custom_fields 26 = "1"
  is_loaded := get_custom_field_value e.custom_fields 80 = "1"
  spent_on := e.spent_on
  week := isoWeek e.spent_on
  month := e.spent_on.month
  quarter := (e.spent_on.month + 2) / 3
  year := e.spent_on.year
  hours := e.hours.getD 0
  comments := e.comments

/-- `DataProcessor.process_time_entries` (lines 16-63): empty input yields
an empty frame; otherwise one row per raw entry, in order. -/
def process_time_entries (entries : List TimeEntryRaw) : List NormalizedRow :=
  if entries.isEmpty then [] else entries.map processEntry

/-- Column names of a raw time-entry frame, in the API's field order. -/
def rawEntryColumns : List String :=
  ["id", "project", "user", "activity", "issue", "hours", "spent_on",
   "created_on", "updated_on", "comments", "custom_fields"]

/-- Columns appended by `process_time_entries`, in assignment order
(lines 26-58); date conversions and the `hours` coercion overwrite
existing columns in place and append nothing. -/
def addedColumns : List String :=
  ["project_name", "user_name", "activity_name", "issue_id",
   "tms_payment", "hours_approved", "error_text", "hours_loaded",
   "work_type_code", "is_paid", "is_approved", "is_loaded",
   "week", "month", "quarter", "year"]

/-- Column list of the frame returned by `process_time_entries` on
non-empty input whose raw frame has columns `rawCols`. -/
def processedColumns (rawCols : List String) : List String :=
  rawCols ++ addedColumns

/-- Downstream cost computation (`src/frontend/components/visualizations.py`
line 252 and similar: `data['cost'] = data['hours'] * hourly_rate`); the
transformer itself produces no cost column. -/
def costOf (hours hourlyRate : ℚ) : ℚ := hours * hourlyRate

/-! ## Rate limiter (`src/redmine_client.py` lines 309-349)

`_check_rate_limit` reads `current_time = time.time()`, prunes
`self._request_times` to entries `> current_time - 1.0`, then loops at most
`max_attempts = 10` times: if the pruned history has at least
`rate_limit_burst` entries it sleeps until the oldest entry leaves the
1-second window, re-reads the clock, re-prunes and `continue`s; otherwise,
**only when the pruned history is non-empty**, it enforces the minimum gap
`1.0 / rate_limit_per_second` against `self._last_request_time`, sleeping
the deficit.  It then records the grant and returns.  Exhausting the 10
attempts raises `RateLimitExceeded`.

Ideal-clock model: `time.time()` after `time.sleep(d)` returns exactly the
previous reading plus `d`.  `gap` stands for `1.0 / rate_limit_per_second`.
In the burst branch `times.headD 0` models `self._request_times[0]`; the
branch is reached only when the list is non-empty (any `burst ≥ 1`
configuration — with `burst = 0` and an empty history the Python code
would raise `IndexError`). -/

structure RLState where
  /-- `self._last_request_time` (initially `0.0`). -/
  lastReq : ℚ
  /-- `self._request_times` (initially `[]`), oldest first. -/
  times : List ℚ
  deriving Repr, DecidableEq

/-- Initial limiter state from the constructor (lines 40-41). -/
def rlInit : RLState := ⟨0, []⟩

/-- Lines 336-347: the rate-gap check followed by the grant.  Returns the
state after the grant together with the grant time. -/
def rlGrant (gap lastReq current : ℚ) (times : List ℚ) : RLState × ℚ :=
  let current2 :=
    if times.isEmpty then current
    else if current - lastReq < gap then lastReq + gap
    else current
  (⟨current2, times ++ [current2]⟩, current2)

/-- The `while attempt < max_attempts` loop (lines 323-347), with the fuel
counting the remaining attempts.  `none` models `RateLimitExceeded`. -/
def rlLoop (burst : Nat) (gap lastReq : ℚ) :
    Nat → ℚ → List ℚ → Option (RLState × ℚ)
  | 0, _, _ => none
  | fuel + 1, current, times =>
      let cutoff := current - 1
      if burst ≤ times.length then
        let sleepTime := times.headD 0 - cutoff
        if 0 < sleepTime then
          let current2 := current + sleepTime
          rlLoop burst gap lastReq fuel current2
            (times.filter (fun t => decide (current2 - 1 < t)))
        else
          some (rlGrant gap lastReq current times)
      else
        some (rlGrant gap lastReq current times)

/-- `RedmineClient._check_rate_limit`, called at clock reading `callTime`. -/
def check_rate_limit (burst : Nat) (gap : ℚ) (s : RLState) (callTime : ℚ) :
    Option (RLState × ℚ) :=
  let times := s.times.filter (fun t => decide (callTime - 1 < t))
  rlLoop burst gap s.lastReq 10 callTime times

/-- A sequence of limiter calls: the i-th call happens `delays[i]` seconds
after the previous grant returned (after time `0` for the first call).
Returns the grant times, stopping early on `RateLimitExceeded`. -/
def rlRun (burst : Nat) (gap : ℚ) : RLState → ℚ → List ℚ → List ℚ
  | _, _, [] => []
  | s, now, d :: ds =>
      match check_rate_limit burst gap s (now + d) with
      | none => []
      | some (s2, g) => g :: rlRun burst gap s2 g ds

/-- Number of grants of `gs` lying in the trailing 1-second window `(g-1, g]`
(the window `_check_rate_limit` prunes against). -/
def windowCount (gs : List ℚ) (g : ℚ) : Nat :=
  gs.countP (fun t => decide (g - 1 < t) && decide (t ≤ g))

/-- Invariant tying a limiter state to `G`, the list of grant times issued
so far (in order): the grants are strictly increasing,
`self._last_request_time` is the last grant, and `self._request_times` is
the suffix of grants newer than some cutoff `c` that lies at least one
second before the last grant, with at most `burst` entries. -/
structure RLInv (burst : Nat) (G : List ℚ) (s : RLState) : Prop where
  chain : G.Chain' (· < ·)
  last_eq : G ≠ [] → G.getLast? = some s.lastReq
  cutoff : ∃ c, c ≤ s.lastReq - 1 ∧
    s.times = G.filter (fun t => decide (c < t)) ∧ s.times.length ≤ burst

/-- Concrete raw entry with no custom fields and uncoercible hours, used as
a verification input. -/
def sampleEntryNoFields : TimeEntryRaw :=
  { id := 1, spent_on := ⟨2024, 2, 15⟩ }

/-- Concrete raw entry tagged paid (field 25 = "1"), used as a verification
input. -/
def sampleEntryPaid : TimeEntryRaw :=
  { id := 2, spent_on := ⟨2024, 2, 15⟩, hours := some 8,
    custom_fields := some [⟨some 25, some "1"⟩, ⟨some 26, some "0"⟩] }

/-! ## Theorems -/

/-- C9: `check_role_access(required_role)` returns true exactly when the
numeric rank of the session role (superadmin=3, admin=2, manager=1, any
unknown role=0) is at least the rank of `required_role`; in particular a
`manager` session fails an `admin` check, a `superadmin` session passes it,
and a session with an unknown role fails checks against all three defined
roles. -/
theorem check_role_access_spec (u r : String) :
    (check_role_access u r = true ↔ roleLevel r ≤ roleLevel u) ∧
    roleLevel "superadmin" = 3 ∧ roleLevel "admin" = 2 ∧
    roleLevel "manager" = 1 ∧
    (u ≠ "superadmin" → u ≠ "admin" → u ≠ "manager" →
      roleLevel u = 0 ∧ check_role_access u "superadmin" = false ∧
      check_role_access u "admin" = false ∧
      check_role_access u "manager" = false) ∧
    check_role_access "manager" "admin" = false ∧
    check_role_access "superadmin" "admin" = true := by
  refine ⟨by simp [check_role_access], rfl, rfl, rfl, ?_, by decide, by decide⟩
  intro h1 h2 h3
  have hu : roleLevel u = 0 := by simp [roleLevel, h1, h2, h3]
  refine ⟨hu, ?_, ?_, ?_⟩ <;> simp [check_role_access, roleLevel, h1, h2, h3]

/-- Witness for `check_role_access_spec` at the unknown role `"guest"`. -/
theorem check_role_access_spec_witness :
    roleLevel "guest" = 0 ∧ check_role_access "guest" "superadmin" = false ∧
    check_role_access "guest" "admin" = false ∧
    check_role_access "guest" "manager" = false :=
  (check_role_access_spec "guest" "admin").2.2.2.2.1
    (by decide) (by decide) (by decide)

/-- C4 counterexample: a 304 (non-2xx) response raises nothing —
`requests.raise_for_status` only raises for 4xx/5xx, so `_handle_response`
returns normally and `_make_request` hands the body to the caller. -/
theorem handle_response_304_cex :
    handle_response 304 none "304 Not Modified" = none := by rfl

/-- C4 (amended): every response with status in 400..599 raises a typed
`RedmineApiError` — 401/403/404 with their fixed messages, 422 with the
server-supplied `errors` array joined by `", "`, any other such status a
generic error preserving the status code and message; statuses below 400
and at/above 600 raise nothing. -/
theorem handle_response_classification (status : Nat)
    (errs : Option (List String)) (msg : String) :
    (400 ≤ status → status < 600 →
      ∃ e, handle_response status errs msg = some e ∧ e.status_code = status ∧
        (status = 401 → e.message = "Authentication failed. Check your API key.") ∧
        (status = 403 → e.message = "Insufficient permissions for this request.") ∧
        (status = 404 → e.message = "Resource not found.") ∧
        (∀ es, status = 422 → errs = some es →
          e.message = "Validation failed: " ++ String.intercalate ", " es) ∧
        (status ≠ 401 → status ≠ 403 → status ≠ 404 → status ≠ 422 →
          (∀ es, errs = some es → e.message = String.intercalate ", " es) ∧
          (errs = none → e.message = msg))) ∧
    (status < 400 ∨ 600 ≤ status → handle_response status errs msg = none) := by
  constructor
  · intro h4 h6
    unfold handle_response
    rw [if_pos ⟨h4, h6⟩]
    by_cases e1 : status = 401
    · subst e1
      exact ⟨_, rfl, rfl, fun _ => rfl, by omega, by omega,
        by intro es h; omega, by omega⟩
    by_cases e2 : status = 403
    · subst e2
      simp only [if_neg e1]
      exact ⟨_, rfl, rfl, by omega, fun _ => rfl, by omega,
        by intro es h; omega, by omega⟩
    by_cases e3 : status = 404
    · subst e3
      simp only [if_neg e1, if_neg e2]
      exact ⟨_, rfl, rfl, by omega, by omega, fun _ => rfl,
        by intro es h; omega, by omega⟩
    by_cases e4 : status = 422
    · subst e4
      simp only [if_neg e1, if_neg e2, if_neg e3]
      refine ⟨_, rfl, rfl, by omega, by omega, by omega, ?_, by omega⟩
      rintro es - rfl
      rfl
    · simp only [if_neg e1, if_neg e2, if_neg e3, if_neg e4]
      refine ⟨_, rfl, rfl, by omega, by omega, by omega, by intro es h; omega,
        fun _ _ _ _ => ⟨fun es hes => by rw [hes], fun hn => by rw [hn]⟩⟩
  · intro h
    unfold handle_response
    rw [if_neg]
    omega

/-- Witness for `handle_response_classification` at a 422 and a 304. -/
theorem handle_response_classification_witness :
    (∃ e, handle_response 422 (some ["a", "b"]) "msg" = some e ∧
      e.status_code = 422 ∧ e.message = "Validation failed: " ++ "a, b") ∧
    handle_response 304 (some ["a"]) "msg" = none := by
  constructor
  · obtain ⟨e, he, hs, -, -, -, h422, -⟩ :=
      (handle_response_classification 422 (some ["a", "b"]) "msg").1
        (by norm_num) (by norm_num)
    exact ⟨e, he, hs, by simpa using h422 ["a", "b"] rfl rfl⟩
  · exact (handle_response_classification 304 (some ["a"]) "msg").2 (by norm_num)

/-- C10: when all three attempts of `_make_request` receive HTTP 429, the
loop is exhausted without raising: the function sleeps the three
`Retry-After` values (defaulting to the 1-second retry delay) and returns
`None` — modelled as `RequestResult.noResponse`, not an API or transport
error — which callers such as `_get_paginated_response` then receive in
place of a response dictionary. -/
theorem make_request_three_429_returns_none {β : Type}
    (ra1 ra2 ra3 : Option ℤ) (eb1 eb2 eb3 : Option (List String))
    (m1 m2 m3 : String) (b1 b2 b3 : β) :
    make_request [AttemptOutcome.response 429 ra1 eb1 m1 b1,
        AttemptOutcome.response 429 ra2 eb2 m2 b2,
        AttemptOutcome.response 429 ra3 eb3 m3 b3] =
      some (RequestResult.noResponse,
        [ra1.getD retryDelay, ra2.getD retryDelay, ra3.getD retryDelay]) := by
  rfl

/-- C1 counterexample: in the trace 429, transport failure, transport
failure, the 429 `continue` has consumed one of the 3 loop attempts, so the
second transport failure is already the final attempt and is re-raised —
the claimed full 3-attempt transport-failure budget is not available after
the 429 (only the 1-second 429 sleep and the 2-second backoff happened). -/
theorem make_request_429_budget_cex :
    make_request (β := Unit)
        [AttemptOutcome.response 429 none none "" (),
         AttemptOutcome.transportFailure "err1",
         AttemptOutcome.transportFailure "err2"] =
      some (RequestResult.transportError "err2", [1, 2]) := by
  rfl

/-- C1 (amended): on HTTP 429, `_make_request` sleeps for the `Retry-After`
value (defaulting to the configured 1-second retry delay when the header is
absent) and retries — but the retry consumes one of the 3 total attempts,
which are shared with transport failures rather than forming a separate
budget. -/
theorem make_request_429_consumes_attempt {β : Type} (ra : Option ℤ)
    (eb : Option (List String)) (msg : String) (body : β)
    (rest : List (AttemptOutcome β)) :
    makeRequestGo 0 (AttemptOutcome.response 429 ra eb msg body :: rest) [] =
      makeRequestGo 1 rest [ra.getD retryDelay] := by
  rfl

/-- C8 counterexample: the frame built by `process_time_entries` has no
`cost` column: its columns are the raw ones plus exactly `addedColumns`. -/
theorem processed_columns_no_cost_cex :
    (processedColumns rawEntryColumns).contains "cost" = false := by
  rfl

/-- C8 (amended): each normalized row carries the flattened raw fields, the
three flags and the `week`/`month`/`quarter`/`year` columns, but no `cost`
column; `cost = hours × hourly_rate` is computed downstream (in the
visualization layer) from the `hours` column. -/
theorem processed_columns_spec :
    "is_paid" ∈ processedColumns rawEntryColumns ∧
    "is_approved" ∈ processedColumns rawEntryColumns ∧
    "is_loaded" ∈ processedColumns rawEntryColumns ∧
    "week" ∈ processedColumns rawEntryColumns ∧
    "month" ∈ processedColumns rawEntryColumns ∧
    "quarter" ∈ processedColumns rawEntryColumns ∧
    "year" ∈ processedColumns rawEntryColumns ∧
    "hours" ∈ processedColumns rawEntryColumns ∧
    (processedColumns rawEntryColumns).contains "cost" = false ∧
    ∀ (e : TimeEntryRaw) (rate : ℚ),
      costOf (processEntry e).hours rate = (processEntry e).hours * rate := by
  refine ⟨by decide, by decide, by decide, by decide, by decide, by decide,
    by decide, by decide, rfl, fun e rate => rfl⟩

theorem cacheLookup_erase_self {α} (m : CacheMap α) (k : String) :
    cacheLookup (cacheErase m k) k = none := by
  induction m with
  | nil => rfl
  | cons p m ih =>
      by_cases h : p.1 = k
      · have e1 : cacheErase (p :: m) k = cacheErase m k := by
          simp [cacheErase, List.filter_cons, h]
        rw [e1]
        exact ih
      · have e1 : cacheErase (p :: m) k = p :: cacheErase m k := by
          simp [cacheErase, List.filter_cons, h]
        have e2 : cacheLookup (p :: cacheErase m k) k =
            cacheLookup (cacheErase m k) k := by
          simp [cacheLookup, List.find?_cons_of_neg, h]
        rw [e1, e2]
        exact ih

theorem cacheLookup_erase_ne {α} (m : CacheMap α) (k k' : String)
    (h : k' ≠ k) : cacheLookup (cacheErase m k) k' = cacheLookup m k' := by
  induction m with
  | nil => rfl
  | cons p m ih =>
      by_cases h1 : p.1 = k
      · have h2 : p.1 ≠ k' := by rw [h1]; exact fun hc => h hc.symm
        have e1 : cacheErase (p :: m) k = cacheErase m k := by
          simp [cacheErase, List.filter_cons, h1]
        have e2 : cacheLookup (p :: m) k' = cacheLookup m k' := by
          simp [cacheLookup, List.find?_cons_of_neg, h2]
        rw [e1, e2]
        exact ih
      · have e1 : cacheErase (p :: m) k = p :: cacheErase m k := by
          simp [cacheErase, List.filter_cons, h1]
        rw [e1]
        by_cases h2 : p.1 = k'
        · simp [cacheLookup, List.find?_cons_of_pos, h2]
        · have e2 : cacheLookup (p :: cacheErase m k) k' =
              cacheLookup (cacheErase m k) k' := by
            simp [cacheLookup, List.find?_cons_of_neg, h2]
          have e3 : cacheLookup (p :: m) k' = cacheLookup m k' := by
            simp [cacheLookup, List.find?_cons_of_neg, h2]
          rw [e2, e3]
          exact ih

theorem cacheLookup_set_self {α} (m : CacheMap α) (k : String) (v : α)
    (ttl : ℤ) (now : ℚ) :
    cacheLookup (cacheManagerSet m k v ttl now) k = some ⟨v, now, ttl⟩ := by
  simp [cacheManagerSet, cacheInsert, cacheLookup]

/-- C5: after `set(k, v, t)` at time `now₀`, `get(k)` at time `now` returns
`v` while `now - now₀ ≤ t`; once `now - now₀` exceeds `t` it returns absent
and removes the entry; and a `get` on one key never changes any other key's
binding (expiry is lazy, per-key, with no proactive sweep). -/
theorem cache_ttl_spec {α} (m : CacheMap α) (k : String) (v : α) (t : ℤ)
    (now₀ now : ℚ) :
    (now - now₀ ≤ (t : ℚ) →
      (cacheManagerGet (cacheManagerSet m k v t now₀) k now).1 = some v) ∧
    ((t : ℚ) < now - now₀ →
      (cacheManagerGet (cacheManagerSet m k v t now₀) k now).1 = none ∧
      cacheLookup (cacheManagerGet (cacheManagerSet m k v t now₀) k now).2 k =
        none) ∧
    (∀ k', k' ≠ k →
      cacheLookup (cacheManagerGet m k now).2 k' = cacheLookup m k') := by
  refine ⟨?_, ?_, ?_⟩
  · intro h
    simp [cacheManagerGet, cacheLookup_set_self, not_lt.mpr h]
  · intro h
    constructor
    · simp [cacheManagerGet, cacheLookup_set_self, h]
    · simp only [cacheManagerGet, cacheLookup_set_self]
      rw [if_pos (by simpa using h)]
      exact cacheLookup_erase_self _ k
  · intro k' hk
    cases hl : cacheLookup m k with
    | none => simp [cacheManagerGet, hl]
    | some entry =>
        by_cases he : now - entry.timestamp > (entry.ttl : ℚ)
        · simp only [cacheManagerGet, hl, if_pos he]
          exact cacheLookup_erase_ne m k k' hk
        · simp [cacheManagerGet, hl, he]

/-- Witness for `cache_ttl_spec`: a fresh entry is visible at exactly its
TTL boundary, gone and purged one second later, and an expiring `get` on
`"k"` leaves the unrelated key `"other"` untouched. -/
theorem cache_ttl_spec_witness :
    (cacheManagerGet (cacheManagerSet ([] : CacheMap ℕ) "k" 5 10 0) "k" 10).1 =
      some 5 ∧
    ((cacheManagerGet (cacheManagerSet ([] : CacheMap ℕ) "k" 5 10 0) "k" 11).1 =
      none ∧
     cacheLookup
        (cacheManagerGet (cacheManagerSet ([] : CacheMap ℕ) "k" 5 10 0)
          "k" 11).2 "k" = none) ∧
    cacheLookup
        (cacheManagerGet
          ([("k", ⟨5, 0, 10⟩), ("other", ⟨7, 0, 10⟩)] : CacheMap ℕ) "k" 11).2
        "other" = cacheLookup
          ([("k", ⟨5, 0, 10⟩), ("other", ⟨7, 0, 10⟩)] : CacheMap ℕ) "other" :=
  ⟨(cache_ttl_spec [] "k" 5 10 0 10).1 (by norm_num),
   (cache_ttl_spec [] "k" 5 10 0 11).2.1 (by norm_num),
   (cache_ttl_spec [("k", ⟨5, 0, 10⟩), ("other", ⟨7, 0, 10⟩)] "k" 5 10 0 11).2.2
     "other" (by decide)⟩

theorem paginateLoop_complete {α : Type} (total : Nat) :
    ∀ (pages : List (Page α)) (acc : List α), pages ≠ [] →
      (∀ k, k + 1 < pages.length →
        acc.length + (((pages.take (k + 1)).map (fun pg => pg.items.length)).sum) < total) →
      acc.length + ((pages.map (fun pg => pg.items.length)).sum) = total →
      paginateLoop pages acc (some total) =
        some (acc ++ pages.flatMap (fun pg => pg.items)) := by
  intro pages
  induction pages with
  | nil => intro acc h; exact absurd rfl h
  | cons p rest ih =>
      intro acc _ hpre htot
      unfold paginateLoop
      simp only [Option.getD_some]
      cases rest with
      | nil =>
          have hlen : (acc ++ p.items).length = total := by
            simpa using htot
          rw [if_pos (le_of_eq hlen.symm)]
          simp
      | cons q rest2 =>
          have h0 : acc.length + p.items.length < total := by
            have := hpre 0 (by simp)
            simpa using this
          rw [if_neg (by simp only [List.length_append]; omega)]
          have step := ih (acc ++ p.items) (by simp)
            (fun k hk => by
              have := hpre (k + 1) (by simpa using Nat.succ_lt_succ hk)
              simpa [List.length_append, Nat.add_assoc] using this)
            (by simpa [List.length_append, Nat.add_assoc] using htot)
          rw [step]
          simp

/-- C2: when the cumulative item count over the supplied pages reaches the
first page's `total_count` exactly at the last page (every proper prefix
staying strictly below it), `_get_paginated_response` terminates and
returns exactly the concatenation of the pages' item lists in page order —
`total_count` items, none missing, none duplicated, never a partial
accumulation. -/
theorem get_paginated_response_exact {α : Type} (p : Page α)
    (rest : List (Page α))
    (hpre : ∀ k, k + 1 < (p :: rest).length →
      ((((p :: rest).take (k + 1)).map (fun pg => pg.items.length)).sum) <
        p.total_count)
    (htot : (((p :: rest).map (fun pg => pg.items.length)).sum) = p.total_count) :
    get_paginated_response (p :: rest) =
      some ((p :: rest).flatMap (fun pg => pg.items)) ∧
    ((p :: rest).flatMap (fun pg => pg.items)).length = p.total_count := by
  have hlen : ((p :: rest).flatMap (fun pg => pg.items)).length = p.total_count := by
    rw [← htot]
    simp [List.length_flatMap, Function.comp_def]
  refine ⟨?_, hlen⟩
  unfold get_paginated_response paginateLoop
  simp only [Option.getD_none]
  cases rest with
  | nil =>
      have : p.items.length = p.total_count := by simpa using htot
      rw [if_pos (by simpa using le_of_eq this.symm)]
      simp
  | cons q rest2 =>
      have h0 : p.items.length < p.total_count := by
        have := hpre 0 (by simp)
        simpa using this
      rw [if_neg (by simpa using Nat.not_le.mpr h0)]
      have step := paginateLoop_complete p.total_count (q :: rest2) p.items
        (by simp)
        (fun k hk => by
          have := hpre (k + 1) (by simpa using Nat.succ_lt_succ hk)
          simpa [Nat.add_assoc] using this)
        (by simpa [Nat.add_assoc] using htot)
      simp only [List.nil_append]
      rw [step]
      simp

/-- Witness for `get_paginated_response_exact`: two pages of one item each
with `total_count = 2` yield exactly `[1, 2]`. -/
theorem get_paginated_response_exact_witness :
    get_paginated_response [(⟨2, [1]⟩ : Page ℕ), ⟨2, [2]⟩] = some [1, 2] ∧
    ([(⟨2, [1]⟩ : Page ℕ), ⟨2, [2]⟩].flatMap (fun pg => pg.items)).length = 2 := by
  have h := get_paginated_response_exact (⟨2, [1]⟩ : Page ℕ) [⟨2, [2]⟩]
    (fun k hk => by
      have hk0 : k = 0 := by simp at hk; omega
      subst hk0
      decide)
    (by decide)
  exact ⟨by simpa using h.1, h.2⟩

/-- C3 counterexample: with caching enabled and a fresh cached value `5`
stored under `"projects"`, `get_projects` still issues the HTTP fetch and
returns the fetched value `7`, not the cached one — it never consults the
cache. -/
theorem get_projects_cache_bypass_cex :
    (cacheManagerGet ([("projects", ⟨5, 0, 3600⟩)] : CacheMap ℕ) "projects" 1).1 =
      some 5 ∧
    (get_projects true ([("projects", ⟨5, 0, 3600⟩)] : CacheMap ℕ) 1 7).httpCalled =
      true ∧
    (get_projects true ([("projects", ⟨5, 0, 3600⟩)] : CacheMap ℕ) 1 7).value = 7 := by
  refine ⟨?_, rfl, rfl⟩
  simp [cacheManagerGet, cacheLookup]

/-- C3 (amended): `get_activities` and `get_issue_statuses` are cache-first
with a 24-hour TTL (hit: cached value, no HTTP; miss: fetch and store;
caching disabled: full bypass), while `get_projects` and `get_users` always
perform the HTTP fetch and never read or write the cache, even though
1-hour TTLs are configured for their keys. -/
theorem client_cache_spec {α : Type} (cache : CacheMap α) (now : ℚ)
    (fetched : α) :
    (∀ enabled, get_projects enabled cache now fetched = ⟨fetched, cache, true⟩) ∧
    (∀ enabled, get_users enabled cache now fetched = ⟨fetched, cache, true⟩) ∧
    cacheTtlOf "projects" = 3600 ∧ cacheTtlOf "users" = 3600 ∧
    cacheTtlOf "activities" = 3600 * 24 ∧ cacheTtlOf "issue_statuses" = 3600 * 24 ∧
    (∀ v, (cacheManagerGet cache "activities" now).1 = some v →
      get_activities true cache now fetched =
        ⟨v, (cacheManagerGet cache "activities" now).2, false⟩) ∧
    ((cacheManagerGet cache "activities" now).1 = none →
      get_activities true cache now fetched =
        ⟨fetched,
         cacheManagerSet (cacheManagerGet cache "activities" now).2 "activities"
           fetched (3600 * 24) now, true⟩) ∧
    get_activities false cache now fetched = ⟨fetched, cache, true⟩ ∧
    (∀ v, (cacheManagerGet cache "issue_statuses" now).1 = some v →
      get_issue_statuses true cache now fetched =
        ⟨v, (cacheManagerGet cache "issue_statuses" now).2, false⟩) ∧
    ((cacheManagerGet cache "issue_statuses" now).1 = none →
      get_issue_statuses true cache now fetched =
        ⟨fetched,
         cacheManagerSet (cacheManagerGet cache "issue_statuses" now).2
           "issue_statuses" fetched (3600 * 24) now, true⟩) ∧
    get_issue_statuses false cache now fetched = ⟨fetched, cache, true⟩ := by
  refine ⟨fun _ => rfl, fun _ => rfl, rfl, rfl, rfl, rfl, ?_, ?_, rfl, ?_, ?_, rfl⟩
  · intro v h
    rcases hp : cacheManagerGet cache "activities" now with ⟨p1, p2⟩
    rw [hp] at h
    simp only at h
    subst h
    simp [get_activities, cachedFetch, hp, cacheTtlOf, cacheTtlDefaults]
  · intro h
    rcases hp : cacheManagerGet cache "activities" now with ⟨p1, p2⟩
    rw [hp] at h
    simp only at h
    subst h
    simp [get_activities, cachedFetch, hp, cacheTtlOf, cacheTtlDefaults]
  · intro v h
    rcases hp : cacheManagerGet cache "issue_statuses" now with ⟨p1, p2⟩
    rw [hp] at h
    simp only at h
    subst h
    simp [get_issue_statuses, cachedFetch, hp, cacheTtlOf, cacheTtlDefaults]
  · intro h
    rcases hp : cacheManagerGet cache "issue_statuses" now with ⟨p1, p2⟩
    rw [hp] at h
    simp only at h
    subst h
    simp [get_issue_statuses, cachedFetch, hp, cacheTtlOf, cacheTtlDefaults]

/-- Witness for `client_cache_spec`: a hit on a cached activities list is
served without HTTP; a miss on the empty cache fetches and stores. -/
theorem client_cache_spec_witness :
    get_projects true ([("activities", ⟨5, 0, 86400⟩)] : CacheMap ℕ) 1 7 =
      ⟨7, [("activities", ⟨5, 0, 86400⟩)], true⟩ ∧
    get_activities true ([("activities", ⟨5, 0, 86400⟩)] : CacheMap ℕ) 1 7 =
      ⟨5, (cacheManagerGet ([("activities", ⟨5, 0, 86400⟩)] : CacheMap ℕ)
            "activities" 1).2, false⟩ ∧
    get_activities true ([] : CacheMap ℕ) 1 7 =
      ⟨7, cacheManagerSet
            (cacheManagerGet ([] : CacheMap ℕ) "activities" 1).2 "activities" 7
            (3600 * 24) 1, true⟩ :=
  ⟨(client_cache_spec [("activities", ⟨5, 0, 86400⟩)] 1 7).1 true,
   (client_cache_spec [("activities", ⟨5, 0, 86400⟩)] 1 7).2.2.2.2.2.2.1 5
     (by simp [cacheManagerGet, cacheLookup]),
   (client_cache_spec ([] : CacheMap ℕ) 1 7).2.2.2.2.2.2.2.1 rfl⟩

/-- C7: `process_time_entries` maps each raw entry to one row;
custom-field extraction is by fixed field-id lookup with `"0"` as the
default for a missing/empty `custom_fields` list or an absent field; each
flag `is_paid`/`is_approved`/`is_loaded` is true exactly when the
corresponding extracted value (field 25/26/80) equals the string `"1"`;
and `hours` is numeric with any uncoercible value replaced by `0`. -/
theorem process_time_entries_fields (entries : List TimeEntryRaw)
    (e : TimeEntryRaw) :
    process_time_entries entries = entries.map processEntry ∧
    (e.custom_fields = none →
      (processEntry e).tms_payment = "0" ∧
      (processEntry e).hours_approved = "0" ∧
      (processEntry e).hours_loaded = "0" ∧
      (processEntry e).is_paid = false ∧
      (processEntry e).is_approved = false ∧
      (processEntry e).is_loaded = false) ∧
    (e.custom_fields = some [] →
      (processEntry e).tms_payment = "0" ∧ (processEntry e).is_paid = false) ∧
    (∀ fs, e.custom_fields = some fs →
      List.find? (fun f => f.id = some 25) fs = none →
      (processEntry e).tms_payment = "0" ∧ (processEntry e).is_paid = false) ∧
    (∀ fs f, e.custom_fields = some fs →
      List.find? (fun f => f.id = some 25) fs = some f →
      (processEntry e).tms_payment = f.value.getD "0" ∧
      ((processEntry e).is_paid = true ↔ f.value = some "1")) ∧
    ((processEntry e).is_paid = true ↔
      get_custom_field_value e.custom_fields 25 = "1") ∧
    ((processEntry e).is_approved = true ↔
      get_custom_field_value e.custom_fields 26 = "1") ∧
    ((processEntry e).is_loaded = true ↔
      get_custom_field_value e.custom_fields 80 = "1") ∧
    (e.hours = none → (processEntry e).hours = 0) ∧
    (∀ q, e.hours = some q → (processEntry e).hours = q) := by
  refine ⟨?_, ?_, ?_, ?_, ?_, ?_, ?_, ?_, ?_, ?_⟩
  · cases entries <;> simp [process_time_entries]
  · intro h
    simp [processEntry, get_custom_field_value, h]
  · intro h
    simp [processEntry, get_custom_field_value, h]
  · intro fs h hfind
    cases fs with
    | nil => simp [processEntry, get_custom_field_value, h]
    | cons f0 fs0 => simp [processEntry, get_custom_field_value, h, hfind]
  · intro fs f h hfind
    cases fs with
    | nil => exact absurd hfind (by simp)
    | cons f0 fs0 =>
        constructor
        · simp [processEntry, get_custom_field_value, h, hfind]
        · cases hv : f.value with
          | none => simp [processEntry, get_custom_field_value, h, hfind, hv]
          | some s =>
              by_cases hs : s = "1"
              · simp [processEntry, get_custom_field_value, h, hfind, hv, hs]
              · simp [processEntry, get_custom_field_value, h, hfind, hv, hs]
  · simp [processEntry]
  · simp [processEntry]
  · simp [processEntry]
  · intro h
    simp [processEntry, h]
  · intro q h
    simp [processEntry, h]

/-- Witness for `process_time_entries_fields` on the two sample entries:
no custom fields gives `"0"` defaults, unpaid flags and zero hours; an
explicit field 25 = "1" gives `is_paid`. -/
theorem process_time_entries_fields_witness :
    ((processEntry sampleEntryNoFields).tms_payment = "0" ∧
     (processEntry sampleEntryNoFields).hours_approved = "0" ∧
     (processEntry sampleEntryNoFields).hours_loaded = "0" ∧
     (processEntry sampleEntryNoFields).is_paid = false ∧
     (processEntry sampleEntryNoFields).is_approved = false ∧
     (processEntry sampleEntryNoFields).is_loaded = false) ∧
    (processEntry sampleEntryNoFields).hours = 0 ∧
    ((processEntry sampleEntryPaid).tms_payment =
        (some "1" : Option String).getD "0" ∧
     ((processEntry sampleEntryPaid).is_paid = true ↔
        (some "1" : Option String) = some "1")) ∧
    (processEntry sampleEntryPaid).hours = 8 :=
  ⟨(process_time_entries_fields [] sampleEntryNoFields).2.1 rfl,
   (process_time_entries_fields [] sampleEntryNoFields).2.2.2.2.2.2.2.2.1 rfl,
   (process_time_entries_fields [] sampleEntryPaid).2.2.2.2.1
     [⟨some 25, some "1"⟩, ⟨some 26, some "0"⟩] ⟨some 25, some "1"⟩ rfl (by decide),
   (process_time_entries_fields [] sampleEntryPaid).2.2.2.2.2.2.2.2.2 8 rfl⟩

theorem rlLoop_succ (burst : Nat) (gap lastReq : ℚ) (fuel : Nat) (current : ℚ)
    (times : List ℚ) :
    rlLoop burst gap lastReq (fuel + 1) current times =
      (if burst ≤ times.length then
        if 0 < times.headD 0 - (current - 1) then
          rlLoop burst gap lastReq fuel (current + (times.headD 0 - (current - 1)))
            (times.filter
              (fun t => decide (current + (times.headD 0 - (current - 1)) - 1 < t)))
        else some (rlGrant gap lastReq current times)
      else some (rlGrant gap lastReq current times)) := rfl

theorem filter_lt_comp (G : List ℚ) (c c2 : ℚ) :
    (G.filter (fun t => decide (c < t))).filter (fun t => decide (c2 < t)) =
      G.filter (fun t => decide (max c c2 < t)) := by
  rw [List.filter_filter]
  apply List.filter_congr
  intro a _
  by_cases h1 : c < a <;> by_cases h2 : c2 < a <;>
    simp [h1, h2, max_lt_iff]

theorem countP_le_of_imp (l : List ℚ) (p q : ℚ → Bool)
    (h : ∀ a ∈ l, p a = true → q a = true) : l.countP p ≤ l.countP q := by
  induction l with
  | nil => simp
  | cons a l ih =>
      have hl := ih (fun b hb hp => h b (List.mem_cons_of_mem a hb) hp)
      rw [List.countP_cons, List.countP_cons]
      by_cases hp : p a = true
      · have hq := h a (List.mem_cons_self a l) hp
        rw [if_pos hp, if_pos hq]
        omega
      · rw [if_neg hp]
        split <;> omega

theorem rlGrant_spec (burst : Nat) (gap lastReq current c : ℚ) (G : List ℚ)
    (times : List ℚ) (hg : 0 < gap)
    (hchain : G.Chain' (· < ·))
    (hlast : G ≠ [] → G.getLast? = some lastReq)
    (hfil : times = G.filter (fun t => decide (c < t)))
    (hdisj : c ≤ current - 1 ∨ c ≤ lastReq - 1)
    (hlen : times.length < burst) :
    ∃ g, rlGrant gap lastReq current times = (⟨g, times ++ [g]⟩, g) ∧
      current ≤ g ∧
      (G ≠ [] → lastReq < g ∧ min gap 1 ≤ g - lastReq) ∧
      RLInv burst (G ++ [g]) ⟨g, times ++ [g]⟩ ∧
      windowCount (G ++ [g]) g ≤ burst := by
  cases htimes : times with
  | nil =>
      subst htimes
      have hGle : ∀ t ∈ G, t ≤ c := by
        intro t ht
        by_contra hlt
        have : t ∈ G.filter (fun t => decide (c < t)) :=
          List.mem_filter.mpr ⟨ht, by simpa using not_le.mp hlt⟩
        rw [← hfil] at this
        simp at this
      -- with a previous grant recorded, the cutoff argument forces
      -- `lastReq ≤ current - 1`
      have hprev : G ≠ [] → lastReq ≤ current - 1 := by
        intro hne
        have hmem : lastReq ∈ G :=
          List.mem_of_mem_getLast? (by rw [hlast hne]; rfl)
        have h1 : lastReq ≤ c := hGle lastReq hmem
        rcases hdisj with h2 | h2
        · linarith
        · linarith
      have hGle' : G ≠ [] → ∀ t ∈ G, t ≤ current - 1 := by
        intro hne t ht
        have h1 : t ≤ c := hGle t ht
        rcases hdisj with h2 | h2
        · linarith
        · have hmem : lastReq ∈ G :=
            List.mem_of_mem_getLast? (by rw [hlast hne]; rfl)
          have := hGle lastReq hmem
          linarith
      refine ⟨current, rfl, le_refl current, ?_, ?_, ?_⟩
      · intro hne
        have := hprev hne
        refine ⟨by linarith, ?_⟩
        have h1 : min gap 1 ≤ 1 := min_le_right gap 1
        linarith
      · refine ⟨?_, ?_, ⟨current - 1, by simp, ?_, ?_⟩⟩
        · rw [List.chain'_append]
          refine ⟨hchain, List.chain'_singleton current, ?_⟩
          intro x hx y hy
          have hne : G ≠ [] := by
            intro hnil
            rw [hnil] at hx
            simp at hx
          rw [hlast hne] at hx
          simp at hx hy
          subst hx; subst hy
          have := hprev hne
          linarith
        · intro _
          rw [List.getLast?_concat]
        · rw [List.filter_append]
          have h2 : List.filter (fun t => decide (current - 1 < t)) [current] =
              [current] := by
            simp
          rw [h2]
          have h1 : G.filter (fun t => decide (current - 1 < t)) = [] := by
            rw [List.filter_eq_nil_iff]
            intro t ht
            simp only [decide_eq_true_eq, not_lt]
            by_cases hne : G = []
            · rw [hne] at ht; simp at ht
            · linarith [hGle' hne t ht]
          rw [h1]
        · simpa using hlen
      · rw [windowCount, List.countP_append]
        have h1 : List.countP
            (fun t => decide (current - 1 < t) && decide (t ≤ current)) G = 0 := by
          rw [List.countP_eq_zero]
          intro t ht
          by_cases hne : G = []
          · rw [hne] at ht; simp at ht
          · simp only [Bool.and_eq_true, decide_eq_true_eq, not_and]
            intro ha hb
            linarith [hGle' hne t ht]
        have h2 : List.countP
            (fun t => decide (current - 1 < t) && decide (t ≤ current)) [current]
            = 1 := by
          simp [List.countP_cons]
        rw [h1, h2]
        omega
  | cons t0 ts =>
      have hne : G ≠ [] := by
        intro hnil
        rw [hnil] at hfil
        simp at hfil
        rw [htimes] at hfil
        exact List.cons_ne_nil t0 ts hfil
      subst htimes
      have hlast' := hlast hne
      set g : ℚ := if current - lastReq < gap then lastReq + gap else current with hgdef
      have hcur : current ≤ g := by
        rw [hgdef]
        split
        · linarith
        · exact le_refl current
      have hgap : gap ≤ g - lastReq := by
        rw [hgdef]
        split
        · linarith
        · linarith [not_lt.mp (by assumption : ¬ current - lastReq < gap)]
      have hlt : lastReq < g := by linarith
      have hcg : c ≤ g - 1 := by
        rcases hdisj with h | h
        · linarith
        · linarith
      have hgrant : rlGrant gap lastReq current (t0 :: ts) =
          (⟨g, (t0 :: ts) ++ [g]⟩, g) := by
        rw [rlGrant, hgdef]
        simp
      refine ⟨g, hgrant, hcur, fun _ => ⟨hlt, le_trans (min_le_left gap 1) hgap⟩,
        ?_, ?_⟩
      · refine ⟨?_, ?_, ⟨c, by linarith, ?_, ?_⟩⟩
        · rw [List.chain'_append]
          refine ⟨hchain, List.chain'_singleton g, ?_⟩
          intro x hx y hy
          rw [hlast'] at hx
          simp at hx hy
          subst hx; subst hy
          exact hlt
        · intro _
          rw [List.getLast?_concat]
        · rw [List.filter_append]
          have h2 : List.filter (fun t => decide (c < t)) [g] = [g] := by
            simp
            linarith
          rw [h2, ← hfil]
        · simp only [List.length_append, List.length_singleton]
          omega
      · rw [windowCount, List.countP_append]
        have h1 : List.countP (fun t => decide (g - 1 < t) && decide (t ≤ g)) G ≤
            List.countP (fun t => decide (c < t)) G := by
          apply countP_le_of_imp
          intro a _ hp
          simp at hp
          simp
          linarith [hp.1]
        have h2 : List.countP (fun t => decide (c < t)) G =
            (t0 :: ts).length := by
          rw [List.countP_eq_length_filter, ← hfil]
        have h3 : List.countP
            (fun t => decide (g - 1 < t) && decide (t ≤ g)) [g] ≤ 1 := by
          simp [List.countP_cons]
        rw [h2] at h1
        simp only [List.length_cons] at h1 hlen
        omega

theorem check_rate_limit_spec (burst : Nat) (gap : ℚ) (G : List ℚ)
    (s : RLState) (callTime : ℚ) (hb : 1 ≤ burst) (hg : 0 < gap)
    (inv : RLInv burst G s) :
    ∃ s2 g, check_rate_limit burst gap s callTime = some (s2, g) ∧
      s2.lastReq = g ∧
      RLInv burst (G ++ [g]) s2 ∧
      (G ≠ [] → min gap 1 ≤ g - s.lastReq) ∧
      windowCount (G ++ [g]) g ≤ burst := by
  obtain ⟨c, hc, hfil, hlen⟩ := inv.cutoff
  set c1 := max c (callTime - 1) with hc1
  have hcomp : s.times.filter (fun t => decide (callTime - 1 < t)) =
      G.filter (fun t => decide (c1 < t)) := by
    rw [hfil, filter_lt_comp]
  have hdisj : c1 ≤ callTime - 1 ∨ c1 ≤ s.lastReq - 1 := by
    by_cases hcc : c ≤ callTime - 1
    · left
      rw [hc1]
      exact max_le hcc (le_refl _)
    · right
      rw [hc1, max_eq_left (le_of_lt (not_le.mp hcc))]
      exact hc
  have hlen1 : (G.filter (fun t => decide (c1 < t))).length ≤ burst := by
    rw [← hcomp]
    exact le_trans (List.length_filter_le _ _) hlen
  simp only [check_rate_limit]
  rw [hcomp]
  by_cases hbl : burst ≤ (G.filter (fun t => decide (c1 < t))).length
  · cases hT : G.filter (fun t => decide (c1 < t)) with
    | nil =>
        rw [hT] at hbl
        simp at hbl
        omega
    | cons t0 ts =>
        have ht0 : c1 < t0 := by
          have hmem : t0 ∈ G.filter (fun t => decide (c1 < t)) := by
            rw [hT]
            exact List.mem_cons_self t0 ts
          simpa using (List.mem_filter.mp hmem).2
        rw [hT] at hbl
        rw [show (10 : ℕ) = 9 + 1 from rfl, rlLoop_succ, if_pos hbl,
          if_pos (by
            simp only [List.headD_cons]
            have := le_max_right c (callTime - 1)
            rw [← hc1] at this
            linarith)]
        simp only [List.headD_cons]
        simp only [show callTime + (t0 - (callTime - 1)) = t0 + 1 from by ring,
          show (t0 + 1 - 1 : ℚ) = t0 from by ring]
        have hT2 : (t0 :: ts).filter (fun t => decide (t0 < t)) =
            G.filter (fun t => decide (t0 < t)) := by
          rw [← hT, filter_lt_comp, max_eq_right (le_of_lt ht0)]
        rw [hT2]
        have hlenT : (t0 :: ts).length ≤ burst := by
          rw [← hT]
          exact hlen1
        have hlen2 : (G.filter (fun t => decide (t0 < t))).length < burst := by
          rw [← hT2]
          have hstep : (t0 :: ts).filter (fun t => decide (t0 < t)) =
              ts.filter (fun t => decide (t0 < t)) := by
            rw [List.filter_cons_of_neg]
            simp
          rw [hstep]
          have := List.length_filter_le (fun t => decide (t0 < t)) ts
          simp only [List.length_cons] at hlenT
          omega
        rw [show (9 : ℕ) = 8 + 1 from rfl, rlLoop_succ, if_neg (not_le.mpr hlen2)]
        obtain ⟨g, hgr, _hcur, hPrev, hinv, hwin⟩ :=
          rlGrant_spec burst gap s.lastReq (t0 + 1) t0 G
            (G.filter (fun t => decide (t0 < t))) hg inv.chain inv.last_eq rfl
            (Or.inl (le_of_eq (by ring))) hlen2
        refine ⟨_, g, by rw [hgr], rfl, hinv, fun h => (hPrev h).2, hwin⟩
  · rw [show (10 : ℕ) = 9 + 1 from rfl, rlLoop_succ, if_neg hbl]
    obtain ⟨g, hgr, _hcur, hPrev, hinv, hwin⟩ :=
      rlGrant_spec burst gap s.lastReq callTime c1 G
        (G.filter (fun t => decide (c1 < t))) hg inv.chain inv.last_eq rfl
        hdisj (not_le.mp hbl)
    refine ⟨_, g, by rw [hgr], rfl, hinv, fun h => (hPrev h).2, hwin⟩

theorem rlRun_go (burst : Nat) (gap : ℚ) (hb : 1 ≤ burst) (hg : 0 < gap) :
    ∀ (delays : List ℚ) (G : List ℚ) (s : RLState) (now : ℚ),
      RLInv burst G s →
      G.Chain' (fun a b => min gap 1 ≤ b - a) →
      (∃ s2, RLInv burst (G ++ rlRun burst gap s now delays) s2) ∧
      (G ++ rlRun burst gap s now delays).Chain' (fun a b => min gap 1 ≤ b - a) ∧
      ∀ g ∈ rlRun burst gap s now delays,
        windowCount (G ++ rlRun burst gap s now delays) g ≤ burst := by
  intro delays
  induction delays with
  | nil =>
      intro G s now inv hch
      simp only [rlRun, List.append_nil]
      exact ⟨⟨s, inv⟩, hch, by simp⟩
  | cons d ds ih =>
      intro G s now inv hch
      obtain ⟨s2, g, hstep, hlg, inv2, hspace, hwin⟩ :=
        check_rate_limit_spec burst gap G s (now + d) hb hg inv
      have hrun : rlRun burst gap s now (d :: ds) =
          g :: rlRun burst gap s2 g ds := by
        simp only [rlRun, hstep]
      have hch2 : (G ++ [g]).Chain' (fun a b => min gap 1 ≤ b - a) := by
        rw [List.chain'_append]
        refine ⟨hch, List.chain'_singleton g, ?_⟩
        intro x hx y hy
        have hne : G ≠ [] := by
          intro hnil
          rw [hnil] at hx
          simp at hx
        rw [inv.last_eq hne] at hx
        simp at hx hy
        subst hx; subst hy
        exact hspace hne
      have trio := ih (G ++ [g]) s2 g inv2 hch2
      rw [hrun, show G ++ g :: rlRun burst gap s2 g ds =
        (G ++ [g]) ++ rlRun burst gap s2 g ds from by simp]
      refine ⟨trio.1, trio.2.1, ?_⟩
      intro g' hg'
      rcases List.mem_cons.mp hg' with heq | hmem
      · subst heq
        rw [windowCount, List.countP_append]
        have hz : List.countP (fun t => decide (g' - 1 < t) && decide (t ≤ g'))
            (rlRun burst gap s2 g' ds) = 0 := by
          rw [List.countP_eq_zero]
          intro t ht
          obtain ⟨s3, inv3⟩ := trio.1
          have hsorted := inv3.chain
          have hpair := (List.chain'_iff_pairwise).mp hsorted
          have hlt : g' < t := by
            have := (List.pairwise_append.mp hpair).2.2 g'
              (by simp) t ht
            exact this
          simp only [Bool.and_eq_true, decide_eq_true_eq, not_and]
          intro _ h2
          linarith
        have hle : List.countP (fun t => decide (g' - 1 < t) && decide (t ≤ g'))
            (G ++ [g']) ≤ burst := hwin
        rw [hz]
        omega
      · exact trio.2.2 g' hmem

/-- C6 counterexample: with `rate_limit_per_second = 1/2` (minimum gap
`1/rate = 2` seconds) and `rate_limit_burst = 30`, a first request granted
at `t = 0` followed by a call at `t = 1.1` is granted immediately: the
1-second pruning window has emptied, the gap check is skipped
(`if self._request_times:`), and the two consecutive grants are only
`1.1 < 2` seconds apart. -/
theorem rate_limiter_gap_cex :
    rlRun 30 2 rlInit 0 [0, 11/10] = [0, 11/10] ∧ (11/10 : ℚ) - 0 < 2 := by
  constructor
  · norm_num [rlRun, check_rate_limit, rlInit,
      show (10 : ℕ) = 9 + 1 from rfl, rlLoop_succ, rlGrant]
  · norm_num

/-- C6 (amended): over every call sequence (each call issued a nonnegative
delay after the previous grant returns), at most `rate_limit_burst` grants
lie within the trailing 1-second window ending at any grant, and
consecutive grants are spaced at least `min (1/rate) 1` seconds apart: the
full `1/rate` spacing is enforced only when the pruned timestamp window is
non-empty at check time, so a request arriving after the window has
emptied (more than 1 second after the last grant) is granted without the
gap check, and for `rate < 1` consecutive gaps may fall below `1/rate`. -/
theorem rate_limiter_window_and_spacing (burst : Nat) (gap : ℚ)
    (delays : List ℚ) (hb : 1 ≤ burst) (hg : 0 < gap) :
    (∀ g ∈ rlRun burst gap rlInit 0 delays,
      windowCount (rlRun burst gap rlInit 0 delays) g ≤ burst) ∧
    (rlRun burst gap rlInit 0 delays).Chain' (fun a b => min gap 1 ≤ b - a) := by
  have inv0 : RLInv burst [] rlInit :=
    ⟨List.chain'_nil, fun h => absurd rfl h,
     ⟨-1, by norm_num [rlInit], rfl, by simp [rlInit]⟩⟩
  have h := rlRun_go burst gap hb hg delays [] rlInit 0 inv0 List.chain'_nil
  rw [List.nil_append] at h
  exact ⟨h.2.2, h.2.1⟩

/-- Witness for `rate_limiter_window_and_spacing`: burst 1, gap 0.1, three
back-to-back calls are granted at 0, 1, 2 — each 1-second window holds one
grant and consecutive gaps are at least `min 0.1 1`. -/
theorem rate_limiter_window_and_spacing_witness :
    (∀ g ∈ rlRun 1 (1/10) rlInit 0 [0, 0, 0],
      windowCount (rlRun 1 (1/10) rlInit 0 [0, 0, 0]) g ≤ 1) ∧
    (rlRun 1 (1/10) rlInit 0 [0, 0, 0]).Chain'
      (fun a b => min (1/10 : ℚ) 1 ≤ b - a) :=
  rate_limiter_window_and_spacing 1 (1/10) [0, 0, 0] (le_refl 1) (by norm_num)

end RedmineAnalytics

